import Mathlib

/-!
Verification development for the article-enrichment service in
`src/backend/main.py` (FastAPI NLP API).

The definitions below are a shallow embedding of the Python source:

* External collaborators (newspaper fetch/parse, spaCy, VADER, YAKE,
  socials/socialshares/socid_extractor, markdownify, displacy) are modelled
  as explicit function/value parameters; only their input/output shapes
  matter, exactly as the code consumes them.
* `float` scores and wall-clock values are modelled as `Int`: no claim
  performs floating-point arithmetic on them, they are only carried,
  compared with `<` / `>`, or checked against the constant `0`.
* Python `dict` (insertion-ordered, unique keys) is modelled as an
  association list in insertion order; assignment to an existing key
  replaces in place, assignment to a new key appends.
* Python `sorted` / `list.sort` (stable) is modelled by a stable insertion
  sort `stableSort`, parameterised by the strict "must come earlier"
  comparison derived from the `key=`/`reverse=` arguments.
* `raise HTTPException` / `try ... except` is modelled with `Except`.
-/

namespace NewsNlp

/-! ## Data model (pydantic models of `main.py`) -/

/-- Model of `KeywordResponse` (keyword plus YAKE score). -/
structure KeywordResponse where
  keyword : String
  score : Int
deriving DecidableEq, Repr

/-- Model of `EntityResponse` (spaCy entity label and text). -/
structure EntityResponse where
  type : String
  text : String
deriving DecidableEq, Repr

/-- Model of `SentimentResponse` (VADER polarity scores; field aliases
pos/neg/neu kept as the python dict keys). -/
structure SentimentResponse where
  compound : Int
  pos : Int
  neg : Int
  neu : Int
deriving DecidableEq, Repr

/-- Model of the `ArticleResponse` pydantic model: the aggregated enriched
record returned by `process_article_data`. Dict-valued fields
(`social_accounts`, `social_shares`, `accounts`) are association lists. -/
structure ArticleResponse where
  title : String
  date : Option Int
  text : String
  markdown : String
  html : String
  summary : String
  keywords : List KeywordResponse
  authors : List String
  banner : Option String
  images : List String
  entities : List EntityResponse
  videos : List String
  social_accounts : List (String × String)
  sentiment : SentimentResponse
  accounts : List (String × String)
  social_shares : List (String × Int)
  processing_time : Int
deriving DecidableEq, Repr

/-- Model of a parsed `newspaper.Article` after `fetch_article` succeeded:
the fields of the external document object that `process_article_data`
reads. -/
structure ArticleDoc where
  title : String
  publish_date : Option Int
  text : String
  article_html : String
  summary : String
  authors : List String
  top_image : Option String
  images : List String
  movies : List String
deriving DecidableEq, Repr

/-- Constant `EXCLUDED_ENTITY_TYPES` from `main.py` (kept as a list; the
python value is a set used only for membership tests). -/
def EXCLUDED_ENTITY_TYPES : List String :=
  ["TIME", "DATE", "LANGUAGE", "PERCENT", "MONEY", "QUANTITY", "ORDINAL", "CARDINAL"]

/-- Model of `EntityFilterOptions` (defaults: `EXCLUDED_ENTITY_TYPES`,
`min_length = 1`). -/
structure EntityFilterOptions where
  exclude_types : List String := EXCLUDED_ENTITY_TYPES
  min_length : Nat := 1
deriving DecidableEq, Repr

/-- Constant `CACHE_SIZE` from `main.py`. -/
def CACHE_SIZE : Nat := 100

/-! ## Entity filter (`filter_entities`, lines 349-369) -/

/-- Deduplication key used by `filter_entities`: `(entity.type, entity.text.lower())`. -/
def entityKey (e : EntityResponse) : String × String :=
  (e.type, e.text.toLower)

/-- The comprehension predicate of `filter_entities`:
`ent.label_ not in options.exclude_types and len(ent.text) >= options.min_length`. -/
def entityPass (options : EntityFilterOptions) (e : EntityResponse) : Bool :=
  decide (e.type ∉ options.exclude_types) && decide (options.min_length ≤ e.text.length)

/-- The `seen` / `unique_entities` loop of `filter_entities`: walk the list,
skip an entity whose key is already in `seen`, otherwise keep it and add its
key to `seen`. -/
def dedupEntities (seen : List (String × String)) : List EntityResponse → List EntityResponse
  | [] => []
  | e :: rest =>
    if entityKey e ∈ seen then
      dedupEntities seen rest
    else
      e :: dedupEntities (entityKey e :: seen) rest

/-- Model of `filter_entities(doc, options)`: the entity list extracted from
the spaCy doc (`doc.ents`, an external input here) is filtered by
`entityPass` and deduplicated keeping first occurrences. -/
def filter_entities (ents : List EntityResponse) (options : EntityFilterOptions) : List EntityResponse :=
  dedupEntities [] (ents.filter (entityPass options))

/-- Specification-side rendering of "deduplicates by `(type, lowercased
text)`, keeping first occurrence, preserving original relative order": keep
the head, then drop every later entity with the same key and recurse. -/
def keepFirstByKey : List EntityResponse → List EntityResponse
  | [] => []
  | e :: rest =>
    e :: keepFirstByKey (rest.filter (fun e2 => decide (entityKey e2 ≠ entityKey e)))
termination_by l => l.length
decreasing_by
  simp only [List.length_cons]
  exact Nat.lt_succ_of_le (List.length_filter_le _ rest)

/-! ## Keyword extraction (`extract_keywords`, lines 333-347) -/

/-- Model of `extract_keywords(text, ...)`. The external YAKE extractor is a
parameter returning either a keyword list or an exception; the function
short-circuits on empty/short text and converts extractor exceptions into
the empty list. -/
def extract_keywords (extractor : String → Except String (List KeywordResponse))
    (text : String) : List KeywordResponse :=
  if text = "" || text.length < 10 then
    []
  else
    match extractor text with
    | .ok kws => kws
    | .error _ => []

/-! ## Staleness (inline check in `process_article`, line 537) -/

/-- Staleness predicate of the cache: `now - entry.storedAt > ttl`.
`process_article` applies it with `ttl = 3600`. -/
def is_stale (storedAt now ttl : Int) : Bool :=
  decide (now - storedAt > ttl)

/-! ## Fetch (`fetch_article`, lines 291-331) -/

/-- Structured error model of `fastapi.HTTPException`. -/
structure HttpError where
  status_code : Nat
  detail : String
deriving DecidableEq, Repr

/-- Model of `fetch_article(link)`: the external newspaper download/parse
(with its internal short-text fallback) either yields a parsed document or
raises; any exception is converted into
`HTTPException(422, "Could not fetch article: ...")`. -/
def fetch_article (fetchResult : Except String ArticleDoc) : Except HttpError ArticleDoc :=
  match fetchResult with
  | .ok article => .ok article
  | .error e => .error ⟨422, "Could not fetch article: " ++ e⟩

/-! ## Analysis task dispatch and aggregation (`process_article_data`, lines 371-480) -/

/-- Outcome vector of `asyncio.gather(*tasks, return_exceptions=True)`:
one `Except` per dispatched task, in the order the tasks are appended in
`process_article_data` (`results[0]` .. `results[6]`). Failure of one task
never aborts the others. -/
structure TaskResults where
  entities : Except String (List EntityResponse)
  social_accounts : Except String (List (String × String))
  social_shares : Except String (List (String × Int))
  sentiment : Except String SentimentResponse
  spacy_html : Except String String
  keywords : Except String (List KeywordResponse)
  accounts : Except String (List (String × String))
deriving Repr

/-- Names for the seven dispatched analysis tasks. -/
inductive TaskId where
  | entities
  | socialAccounts
  | socialShares
  | sentiment
  | spacyHtml
  | keywords
  | accounts
deriving DecidableEq, Repr

/-- Replace exactly one task outcome by a failure (used to state single-task
failure claims). -/
def TaskResults.failAt (r : TaskResults) (i : TaskId) (e : String) : TaskResults :=
  match i with
  | .entities => { r with entities := .error e }
  | .socialAccounts => { r with social_accounts := .error e }
  | .socialShares => { r with social_shares := .error e }
  | .sentiment => { r with sentiment := .error e }
  | .spacyHtml => { r with spacy_html := .error e }
  | .keywords => { r with keywords := .error e }
  | .accounts => { r with accounts := .error e }

/-- Helper for the per-task defaulting pattern
`results[i] if not isinstance(results[i], Exception) else default`. -/
def exceptD {α : Type} (x : Except String α) (d : α) : α :=
  match x with
  | .ok v => v
  | .error _ => d

/-- The default VADER scores substituted for a failed sentiment task:
`{"compound": 0, "pos": 0, "neg": 0, "neu": 0}`. -/
def defaultSentiment : SentimentResponse := ⟨0, 0, 0, 0⟩

/-- The local variables of `process_article_data` after the defaulting step
(lines 435-441): every task payload, with documented defaults substituted
for failed tasks. -/
structure Payloads where
  filtered_entities : List EntityResponse
  social_accounts : List (String × String)
  social_shares : List (String × Int)
  sentiment_scores : SentimentResponse
  spacy_html : String
  keywords : List KeywordResponse
  accounts : List (String × String)
deriving DecidableEq, Repr

/-- Defaulting step of `process_article_data` (lines 435-441): each task
result is kept on success and replaced by its documented default
(`[]`, `{}`, zero scores, or `""`) on failure. -/
def Payloads.ofResults (r : TaskResults) : Payloads where
  filtered_entities := exceptD r.entities []
  social_accounts := exceptD r.social_accounts []
  social_shares := exceptD r.social_shares []
  sentiment_scores := exceptD r.sentiment defaultSentiment
  spacy_html := exceptD r.spacy_html ""
  keywords := exceptD r.keywords []
  accounts := exceptD r.accounts []

/-- Overwrite one payload with its documented default (used to state the
single-task failure claims). -/
def Payloads.defaultAt (p : Payloads) (i : TaskId) : Payloads :=
  match i with
  | .entities => { p with filtered_entities := [] }
  | .socialAccounts => { p with social_accounts := [] }
  | .socialShares => { p with social_shares := [] }
  | .sentiment => { p with sentiment_scores := defaultSentiment }
  | .spacyHtml => { p with spacy_html := "" }
  | .keywords => { p with keywords := [] }
  | .accounts => { p with accounts := [] }

/-- Construction of the final `ArticleResponse` (lines 462-480). `markdown`
is the synchronous markdownify conversion of `article.article_html`; note
that the defaulted `spacy_html` payload is NOT part of the record. -/
def aggregate (article : ArticleDoc) (markdown : String) (p : Payloads)
    (processing_time : Int) : ArticleResponse where
  title := article.title
  date := article.publish_date
  text := article.text
  markdown := markdown
  html := article.article_html
  summary := article.summary
  keywords := p.keywords
  authors := article.authors
  banner := article.top_image
  images := article.images
  entities := p.filtered_entities
  videos := article.movies
  social_accounts := p.social_accounts
  sentiment := p.sentiment_scores
  accounts := p.accounts
  social_shares := p.social_shares
  processing_time := processing_time

/-- Record-level effect of defaulting a single task: the six tasks whose
payloads are carried into the record get their field defaulted; the
`spacy_html` (displacy markup rendering) payload has no record field, so
defaulting it leaves the record unchanged. -/
def ArticleResponse.defaultAt (rec : ArticleResponse) (i : TaskId) : ArticleResponse :=
  match i with
  | .entities => { rec with entities := [] }
  | .socialAccounts => { rec with social_accounts := [] }
  | .socialShares => { rec with social_shares := [] }
  | .sentiment => { rec with sentiment := defaultSentiment }
  | .spacyHtml => rec
  | .keywords => { rec with keywords := [] }
  | .accounts => { rec with accounts := [] }

/-- Model of `process_article_data(link)`: fetch the article (propagating
the fetch failure as an `HttpError`), dispatch the seven analysis tasks
(`run`, covering the spaCy pipeline and the external engines, each task
failing independently), substitute defaults for failed tasks, and aggregate
the record. `mdRender` is the external markdownify conversion;
`processing_time` is the measured wall-clock elapsed time. -/
def process_article_data (fetchResult : Except String ArticleDoc)
    (run : ArticleDoc → TaskResults) (mdRender : String → String)
    (processing_time : Int) : Except HttpError ArticleResponse :=
  match fetch_article fetchResult with
  | .error e => .error e
  | .ok article =>
    .ok (aggregate article (mdRender article.article_html)
      (Payloads.ofResults (run article)) processing_time)

/-! ## Stable sort (model of python sorted / list.sort) -/

/-- Stable insertion step: `lt y x = true` means `y` must stay strictly
before `x` in the target order; an inserted element therefore goes in front
of the first element it is not strictly preceded by, matching python's
stable sort. -/
def insertStable {α : Type} (lt : α → α → Bool) (x : α) : List α → List α
  | [] => [x]
  | y :: ys => if lt y x then y :: insertStable lt x ys else x :: y :: ys

/-- Stable sort of a list, processing elements right to left so earlier
elements are inserted last and land before equal elements. -/
def stableSort {α : Type} (lt : α → α → Bool) (l : List α) : List α :=
  l.foldr (insertStable lt) []

/-! ## Cache store (`article_cache`, `manage_cache_size`, cache writes) -/

/-- One value of the `article_cache` dict:
`{"data": result, "timestamp": time.time()}`. -/
structure CacheItem where
  data : ArticleResponse
  timestamp : Int
deriving DecidableEq, Repr

/-- The `article_cache` dict, as an insertion-ordered association list with
unique keys. -/
abbrev Cache := List (String × CacheItem)

/-- Model of `cache_key in article_cache`. -/
def dictContains (c : Cache) (k : String) : Bool :=
  c.any (fun p => decide (p.1 = k))

/-- Model of `article_cache[cache_key]` lookup. -/
def dictFind (c : Cache) (k : String) : Option CacheItem :=
  (c.find? (fun p => decide (p.1 = k))).map Prod.snd

/-- Model of `article_cache[cache_key] = value`: replace in place when the
key exists, else append (python dicts preserve insertion order). -/
def dictSet (c : Cache) (k : String) (v : CacheItem) : Cache :=
  if c.any (fun p => decide (p.1 = k)) then
    c.map (fun p => if p.1 = k then (k, v) else p)
  else
    c ++ [(k, v)]

/-- The `key=lambda k: article_cache[k].get("timestamp", 0)` comparison used
by `manage_cache_size`: an entry must come strictly earlier exactly when its
timestamp is strictly smaller. -/
def tsLt (a b : String × CacheItem) : Bool :=
  decide (a.2.timestamp < b.2.timestamp)

/-- Model of `manage_cache_size()` (lines 490-497), generalised over the
capacity constant: when the dict has grown beyond `cap`, sort the keys by
stored timestamp ascending (python `sorted`, stable), take the oldest
`len - cap` keys and delete them. -/
def manage_cache_size_cap (cap : Nat) (c : Cache) : Cache :=
  if c.length > cap then
    let keys_to_remove := ((stableSort tsLt c).map Prod.fst).take (c.length - cap)
    c.filter (fun p => decide (p.1 ∉ keys_to_remove))
  else
    c

/-- Model of `manage_cache_size()` with the source's `CACHE_SIZE` constant. -/
def manage_cache_size : Cache → Cache :=
  manage_cache_size_cap CACHE_SIZE

/-- The cache-write sequence executed after a successful enrichment
(lines 547-551 and 505-509): `article_cache[cache_key] = {"data": result,
"timestamp": now}` followed by `manage_cache_size()`, generalised over the
capacity. -/
def cache_put_cap (cap : Nat) (c : Cache) (k : String) (data : ArticleResponse)
    (now : Int) : Cache :=
  manage_cache_size_cap cap (dictSet c k ⟨data, now⟩)

/-- The cache-write sequence with the source's `CACHE_SIZE` capacity. -/
def cache_put (c : Cache) (k : String) (data : ArticleResponse) (now : Int) : Cache :=
  manage_cache_size (dictSet c k ⟨data, now⟩)

/-- Model of the background task `update_article_cache(url, cache_key)`
(lines 500-512): re-run the enrichment pipeline; on success overwrite the
cache entry and trim the cache, on any exception only log — the cache is
untouched. `enrichResult` is the outcome of the inner
`process_article_data(url)` call. -/
def update_article_cache (enrichResult : Except HttpError ArticleResponse)
    (c : Cache) (cache_key : String) (now : Int) : Cache :=
  match enrichResult with
  | .ok result => cache_put c cache_key result now
  | .error _ => c

/-! ## Request coordinator (`process_article`, lines 522-562) -/

/-- The JSON body returned on success: `{"data": result, "cached": flag}`. -/
structure ProcessResult where
  data : ArticleResponse
  cached : Bool
deriving DecidableEq, Repr

/-- Observable outcome of one `process_article` request: the HTTP response
(or raised `HTTPException`), the cache state afterwards, and the background
refresh jobs scheduled via `background_tasks.add_task` as `(url, cache_key)`
pairs. -/
structure ProcessOutcome where
  response : Except HttpError ProcessResult
  cache : Cache
  refreshes : List (String × String)
deriving Repr

/-- Model of the `process_article` route handler. `md5hex` is the external
`hashlib.md5(url.encode()).hexdigest()` of `get_cache_key`; `fetchResult`,
`run` and `mdRender` parameterise the synchronous enrichment exactly as in
`process_article_data`. On a cache hit the cached record is returned
immediately with `cached = True`, scheduling one background refresh when the
entry is older than 3600 seconds; otherwise the article is processed
synchronously and written to the cache, and a fetch failure propagates as
the `HTTPException` raised by `fetch_article`. -/
def process_article (md5hex : String → String)
    (fetchResult : Except String ArticleDoc) (run : ArticleDoc → TaskResults)
    (mdRender : String → String) (link : String) (useCache : Bool)
    (cache : Cache) (now : Int) (processing_time : Int) : ProcessOutcome :=
  let cache_key := md5hex link
  match (if useCache then dictFind cache cache_key else none) with
  | some cached_item =>
    let refreshes := if is_stale cached_item.timestamp now 3600 then [(link, cache_key)] else []
    { response := .ok ⟨cached_item.data, true⟩, cache := cache, refreshes := refreshes }
  | none =>
    match process_article_data fetchResult run mdRender processing_time with
    | .error e => { response := .error e, cache := cache, refreshes := [] }
    | .ok result =>
      { response := .ok ⟨result, false⟩
        cache := cache_put cache cache_key result now
        refreshes := [] }

/-! ## Cached article listing (`get_cached_articles`, lines 571-633) -/

/-- One element of the `cached_articles` working list built by
`get_cached_articles`: cache metadata plus the computed `creation_date`
sorting key. -/
structure CachedEntryFull where
  cache_key : String
  cached_at : Int
  creation_date : Int
  article : ArticleResponse
deriving DecidableEq, Repr

/-- Model of a `CachedArticleResponse` item of the route's response. -/
structure CachedArticleResponse where
  cache_key : String
  cached_at : Int
  article : ArticleResponse
deriving DecidableEq, Repr

/-- Build one working entry from a cache pair: `cached_at` is the cache
write time, `creation_date` is the article's own publish date when present,
falling back to `cached_at`. -/
def toCachedEntry (p : String × CacheItem) : CachedEntryFull where
  cache_key := p.1
  cached_at := p.2.timestamp
  creation_date :=
    match p.2.data.date with
    | some d => d
    | none => p.2.timestamp
  article := p.2.data

/-- The `reverse=True` comparison of the listing sort: an entry must come
strictly earlier exactly when its `creation_date` is strictly greater. -/
def cdGt (a b : CachedEntryFull) : Bool :=
  decide (b.creation_date < a.creation_date)

/-- The fully sorted working list of `get_cached_articles`
(`cached_articles.sort(key=lambda x: x["creation_date"], reverse=True)`). -/
def cachedSorted (c : Cache) : List CachedEntryFull :=
  stableSort cdGt (c.map toCachedEntry)

/-- Model of the `get_cached_articles` route: build the working list from
every cache entry, sort it by `creation_date` descending, report the total
count of the whole list, and return the page `[offset, offset+limit)`. -/
def get_cached_articles (c : Cache) (limit offset : Nat) :
    Nat × List CachedArticleResponse :=
  let sorted := cachedSorted c
  let total_articles := sorted.length
  let paginated := (sorted.drop offset).take limit
  (total_articles, paginated.map (fun it => ⟨it.cache_key, it.cached_at, it.article⟩))

/-! ## Helper lemmas: stable sort -/

theorem insertStable_perm {α : Type} (lt : α → α → Bool) (x : α) (l : List α) :
    List.Perm (insertStable lt x l) (x :: l) := by
  induction l with
  | nil => rfl
  | cons y ys ih =>
    by_cases h : lt y x = true
    · rw [insertStable, if_pos h]
      exact (ih.cons y).trans (List.Perm.swap x y ys)
    · rw [insertStable, if_neg h]

theorem stableSort_perm {α : Type} (lt : α → α → Bool) (l : List α) :
    List.Perm (stableSort lt l) l := by
  induction l with
  | nil => rfl
  | cons a l ih =>
    exact (insertStable_perm lt a (stableSort lt l)).trans (ih.cons a)

theorem insertStable_pairwise {α : Type} {lt : α → α → Bool} {R : α → α → Prop}
    (htr : Transitive R)
    (h1 : ∀ a b, lt a b = true → R a b)
    (h2 : ∀ a b, lt a b = false → R b a)
    (x : α) {l : List α} (hl : l.Pairwise R) :
    (insertStable lt x l).Pairwise R := by
  induction l with
  | nil => simp [insertStable]
  | cons y ys ih =>
    rcases List.pairwise_cons.mp hl with ⟨hy, hys⟩
    by_cases h : lt y x = true
    · rw [insertStable, if_pos h]
      refine List.pairwise_cons.mpr ⟨?_, ih hys⟩
      intro z hz
      rcases List.mem_cons.mp ((insertStable_perm lt x ys).mem_iff.mp hz) with hzx | hz2
      · rw [hzx]
        exact h1 y x h
      · exact hy z hz2
    · have h' : lt y x = false := Bool.eq_false_iff.mpr h
      rw [insertStable, if_neg h]
      refine List.pairwise_cons.mpr ⟨?_, hl⟩
      intro z hz
      rcases List.mem_cons.mp hz with hzy | hz2
      · rw [hzy]
        exact h2 y x h'
      · exact htr (h2 y x h') (hy z hz2)

theorem stableSort_pairwise {α : Type} {lt : α → α → Bool} {R : α → α → Prop}
    (htr : Transitive R)
    (h1 : ∀ a b, lt a b = true → R a b)
    (h2 : ∀ a b, lt a b = false → R b a)
    (l : List α) : (stableSort lt l).Pairwise R := by
  induction l with
  | nil => exact List.Pairwise.nil
  | cons a l ih => exact insertStable_pairwise htr h1 h2 a ih

theorem insertStable_eq_cons {α : Type} {lt : α → α → Bool} (x : α) {l : List α}
    (h : ∀ y ∈ l, lt y x = false) : insertStable lt x l = x :: l := by
  cases l with
  | nil => rfl
  | cons y ys =>
    rw [insertStable, if_neg]
    simp [h y (List.mem_cons_self y ys)]

theorem stableSort_eq_self {α : Type} {lt : α → α → Bool} {l : List α}
    (h : l.Pairwise (fun a b => lt b a = false)) : stableSort lt l = l := by
  induction l with
  | nil => rfl
  | cons a l ih =>
    rcases List.pairwise_cons.mp h with ⟨ha, hl⟩
    show insertStable lt a (stableSort lt l) = a :: l
    rw [ih hl]
    exact insertStable_eq_cons a ha

/-! ## Helper lemmas: dict operations -/

theorem mem_dictSet {c : Cache} {k : String} {v : CacheItem} {q : String × CacheItem}
    (hq : q ∈ dictSet c k v) : q = (k, v) ∨ (q ∈ c ∧ q.1 ≠ k) := by
  unfold dictSet at hq
  by_cases hc : c.any (fun p => decide (p.1 = k)) = true
  · rw [if_pos hc] at hq
    rcases List.mem_map.mp hq with ⟨p, hp, hpq⟩
    by_cases hpk : p.1 = k
    · left
      rw [← hpq, if_pos hpk]
    · right
      rw [← hpq, if_neg hpk]
      exact ⟨hp, hpk⟩
  · rw [if_neg hc] at hq
    rcases List.mem_append.mp hq with hq | hq
    · right
      refine ⟨hq, fun hk => hc ?_⟩
      exact List.any_eq_true.mpr ⟨q, hq, by simp [hk]⟩
    · left
      simpa using hq

theorem self_mem_dictSet (c : Cache) (k : String) (v : CacheItem) :
    (k, v) ∈ dictSet c k v := by
  unfold dictSet
  by_cases hc : c.any (fun p => decide (p.1 = k)) = true
  · rw [if_pos hc]
    rcases List.any_eq_true.mp hc with ⟨p, hp, hpk⟩
    simp only [decide_eq_true_eq] at hpk
    exact List.mem_map.mpr ⟨p, hp, by rw [if_pos hpk]⟩
  · rw [if_neg hc]
    simp

theorem eq_of_mem_dictSet_key {c : Cache} {k : String} {v : CacheItem}
    {q : String × CacheItem} (hq : q ∈ dictSet c k v) (hk : q.1 = k) : q = (k, v) := by
  rcases mem_dictSet hq with h | h
  · exact h
  · exact absurd hk h.2

theorem dictSet_absent {c : Cache} {k : String} (v : CacheItem)
    (h : k ∉ c.map Prod.fst) : dictSet c k v = c ++ [(k, v)] := by
  unfold dictSet
  rw [if_neg]
  simp only [List.any_eq_true, decide_eq_true_eq]
  rintro ⟨p, hp, hpk⟩
  exact h (List.mem_map.mpr ⟨p, hp, hpk⟩)

theorem keys_dictSet (c : Cache) (k : String) (v : CacheItem)
    (h : (c.map Prod.fst).Nodup) : ((dictSet c k v).map Prod.fst).Nodup := by
  unfold dictSet
  by_cases hc : c.any (fun p => decide (p.1 = k)) = true
  · rw [if_pos hc]
    have hmaps : (c.map (fun p => if p.1 = k then (k, v) else p)).map Prod.fst
        = c.map Prod.fst := by
      rw [List.map_map]
      apply List.map_congr_left
      intro p _
      by_cases hpk : p.1 = k
      · simp [hpk]
      · simp [hpk]
    rw [hmaps]
    exact h
  · rw [if_neg hc, List.map_append]
    have hk : k ∉ c.map Prod.fst := by
      intro hmem
      rcases List.mem_map.mp hmem with ⟨p, hp, hpk⟩
      exact hc (List.any_eq_true.mpr ⟨p, hp, by simp [hpk]⟩)
    simp [List.nodup_append, h, hk]

theorem dictFind_eq_none {c : Cache} {k : String} (h : dictContains c k = false) :
    dictFind c k = none := by
  unfold dictContains at h
  unfold dictFind
  rw [List.find?_eq_none.mpr]
  · rfl
  · intro p hp
    simp only [decide_eq_true_eq]
    intro hpk
    rw [List.any_eq_false] at h
    exact absurd (by simpa using hpk) (h p hp)

/-! ## Helper lemmas: cache eviction -/

theorem sorted_fix_of_strict {c : Cache}
    (h : c.Pairwise (fun a b => a.2.timestamp < b.2.timestamp)) :
    stableSort tsLt c = c := by
  apply stableSort_eq_self
  refine h.imp ?_
  intro a b hab
  simp only [tsLt, decide_eq_false_iff_not, not_lt]
  omega

theorem filter_key_head {q : String × CacheItem} {rest : Cache}
    (h : ((q :: rest).map Prod.fst).Nodup) :
    (q :: rest).filter (fun p => decide (p.1 ∉ [q.1])) = rest := by
  rw [List.filter_cons_of_neg (by simp)]
  apply List.filter_eq_self.mpr
  intro p hp
  simp only [List.mem_singleton, decide_eq_true_eq]
  intro hpq
  rw [List.map_cons, List.nodup_cons] at h
  exact h.1 (hpq ▸ List.mem_map.mpr ⟨p, hp, rfl⟩)

theorem cache_put_cap_step (cap : Nat) (c : Cache) (p : String × CacheItem)
    (hnodup : ((c ++ [p]).map Prod.fst).Nodup)
    (hsorted : (c ++ [p]).Pairwise (fun a b => a.2.timestamp < b.2.timestamp))
    (hlen : c.length ≤ cap) :
    cache_put_cap cap c p.1 p.2.data p.2.timestamp = (c ++ [p]).drop (c.length + 1 - cap) := by
  have hpk : p.1 ∉ c.map Prod.fst := by
    rw [List.map_append] at hnodup
    intro hmem
    exact (List.nodup_append.mp hnodup).2.2 hmem (by simp)
  have hset : dictSet c p.1 ⟨p.2.data, p.2.timestamp⟩ = c ++ [p] := by
    rw [dictSet_absent _ hpk]
  unfold cache_put_cap
  rw [hset]
  unfold manage_cache_size_cap
  have hlen1 : (c ++ [p]).length = c.length + 1 := by simp
  by_cases hgt : (c ++ [p]).length > cap
  · rw [if_pos hgt]
    have hclen : c.length = cap := by omega
    rw [sorted_fix_of_strict hsorted, hlen1]
    have htake : c.length + 1 - cap = 1 := by omega
    rw [htake]
    cases c with
    | nil =>
      simp
    | cons q rest =>
      show (q :: (rest ++ [p])).filter
          (fun x => decide (x.1 ∉ ((q :: (rest ++ [p])).map Prod.fst).take 1)) = _
      rw [List.map_cons, List.take_cons, List.take_zero]
      exact filter_key_head hnodup
      exact Nat.one_pos
  · rw [if_neg hgt]
    rw [hlen1] at hgt
    rw [show c.length + 1 - cap = 0 by omega, List.drop_zero]

theorem cache_put_cap_fold (cap : Nat) (ps : List (String × CacheItem)) (init : Cache)
    (hnodup : ((init ++ ps).map Prod.fst).Nodup)
    (hsorted : (init ++ ps).Pairwise (fun a b => a.2.timestamp < b.2.timestamp))
    (hlen : init.length ≤ cap) :
    ps.foldl (fun c p => cache_put_cap cap c p.1 p.2.data p.2.timestamp) init
      = (init ++ ps).drop (init.length + ps.length - cap) := by
  induction ps generalizing init with
  | nil =>
    simp only [List.foldl_nil, List.append_nil, List.length_nil, Nat.add_zero]
    rw [show init.length - cap = 0 by omega, List.drop_zero]
  | cons p ps ih =>
    rw [List.foldl_cons]
    have hassoc : init ++ p :: ps = (init ++ [p]) ++ ps := by simp
    rw [hassoc] at hnodup hsorted
    have hsub : List.Sublist (init ++ [p]) ((init ++ [p]) ++ ps) :=
      List.sublist_append_left _ _
    have hstep := cache_put_cap_step cap init p
      ((hnodup).sublist (hsub.map Prod.fst)) (hsorted.sublist hsub) hlen
    rw [hstep]
    set d := init.length + 1 - cap with hd
    set init' := (init ++ [p]).drop d with hinit'
    have hdle : d ≤ (init ++ [p]).length := by
      simp only [List.length_append, List.length_cons, List.length_nil]
      omega
    have hkey : init' ++ ps = ((init ++ [p]) ++ ps).drop d := by
      rw [List.drop_append_of_le_length hdle]
    have hlen' : init'.length = init.length + 1 - d := by
      rw [hinit', List.length_drop]
      simp
    have hsub' : List.Sublist (init' ++ ps) ((init ++ [p]) ++ ps) := by
      rw [hkey]
      exact List.drop_sublist _ _
    have ihres := ih init' ((hnodup).sublist (hsub'.map Prod.fst)) (hsorted.sublist hsub')
      (by omega)
    rw [ihres, hkey, List.drop_drop]
    have hidx : d + (init'.length + ps.length - cap) = init.length + (p :: ps).length - cap := by
      simp only [List.length_cons]
      omega
    rw [hidx, ← hassoc]

theorem length_filter_notin_keys (c : Cache) :
    ∀ (ks : List String), (c.map Prod.fst).Nodup → ks.Nodup →
      (∀ k ∈ ks, k ∈ c.map Prod.fst) →
      (c.filter (fun p => decide (p.1 ∉ ks))).length = c.length - ks.length := by
  induction c with
  | nil =>
    intro ks _ _ hsub
    cases ks with
    | nil => simp
    | cons k ks => exact absurd (hsub k (by simp)) (by simp)
  | cons q c ih =>
    intro ks hc hks hsub
    rw [List.map_cons, List.nodup_cons] at hc
    by_cases hq : q.1 ∈ ks
    · rw [List.filter_cons_of_neg (by simpa using hq)]
      have herase : c.filter (fun p => decide (p.1 ∉ ks))
          = c.filter (fun p => decide (p.1 ∉ ks.erase q.1)) := by
        apply List.filter_congr
        intro p hp
        have hpk : p.1 ≠ q.1 := by
          intro h
          exact hc.1 (h ▸ List.mem_map.mpr ⟨p, hp, rfl⟩)
        simp [List.mem_erase_of_ne hpk]
      rw [herase, ih (ks.erase q.1) hc.2 (hks.erase q.1) ?_]
      · rw [List.length_erase_of_mem hq]
        have hpos : 0 < ks.length := List.length_pos.mpr (List.ne_nil_of_mem hq)
        simp only [List.length_cons]
        omega
      · intro k hk
        have hkne : k ≠ q.1 := (List.Nodup.mem_erase_iff hks |>.mp hk).1
        have hkks : k ∈ ks := List.mem_of_mem_erase hk
        have h0 := hsub k hkks
        rw [List.map_cons] at h0
        rcases List.mem_cons.mp h0 with h | h
        · exact absurd h hkne
        · exact h
    · rw [List.filter_cons_of_pos (by simpa using hq)]
      have hsub' : ∀ k ∈ ks, k ∈ c.map Prod.fst := by
        intro k hk
        have h0 := hsub k hk
        rw [List.map_cons] at h0
        rcases List.mem_cons.mp h0 with h | h
        · exact absurd (h ▸ hk) hq
        · exact h
      have hle : ks.length ≤ (c.map Prod.fst).length :=
        (List.subperm_of_subset hks hsub').length_le
      rw [List.length_cons, ih ks hc.2 hks hsub']
      rw [List.length_map] at hle
      simp only [List.length_cons]
      omega

theorem cache_put_cap_length_le (cap : Nat) (c : Cache) (k : String)
    (d : ArticleResponse) (t : Int)
    (hnodup : (c.map Prod.fst).Nodup) (hlen : c.length ≤ cap) :
    (cache_put_cap cap c k d t).length ≤ cap := by
  unfold cache_put_cap manage_cache_size_cap
  set c' := dictSet c k ⟨d, t⟩ with hc'
  have hnodup' : (c'.map Prod.fst).Nodup := keys_dictSet c k _ hnodup
  by_cases hgt : c'.length > cap
  · rw [if_pos hgt]
    set sortedKeys := (stableSort tsLt c').map Prod.fst with hsk
    have hperm : List.Perm sortedKeys (c'.map Prod.fst) :=
      (stableSort_perm tsLt c').map Prod.fst
    have hsknodup : sortedKeys.Nodup := hperm.nodup_iff.mpr hnodup'
    have htknodup : (sortedKeys.take (c'.length - cap)).Nodup :=
      hsknodup.sublist (List.take_sublist _ _)
    have htksub : ∀ x ∈ sortedKeys.take (c'.length - cap), x ∈ c'.map Prod.fst := by
      intro x hx
      exact hperm.mem_iff.mp (List.take_subset _ _ hx)
    rw [length_filter_notin_keys c' (sortedKeys.take (c'.length - cap)) hnodup'
      htknodup htksub]
    have hlentk : (sortedKeys.take (c'.length - cap)).length = c'.length - cap := by
      rw [List.length_take]
      have hsl : sortedKeys.length = c'.length := by
        rw [hperm.length_eq, List.length_map]
      omega
    omega
  · rw [if_neg hgt]
    omega

theorem cache_put_cap_frame (cap : Nat) (c : Cache) (k : String)
    (d : ArticleResponse) (t : Int) (hcap : 0 < cap)
    (hnodup : (c.map Prod.fst).Nodup)
    (hts : ∀ q ∈ c, q.2.timestamp < t) :
    (k, ⟨d, t⟩) ∈ cache_put_cap cap c k d t
      ∧ ∀ q ∈ cache_put_cap cap c k d t, q.1 ≠ k → q ∈ c := by
  unfold cache_put_cap manage_cache_size_cap
  set c' := dictSet c k ⟨d, t⟩ with hc'
  have f1 : (k, ⟨d, t⟩) ∈ c' := self_mem_dictSet c k ⟨d, t⟩
  have f3 : (c'.map Prod.fst).Nodup := keys_dictSet c k ⟨d, t⟩ hnodup
  by_cases hgt : c'.length > cap
  · rw [if_pos hgt]
    have hKnot : k ∉ ((stableSort tsLt c').map Prod.fst).take (c'.length - cap) := by
      set m := c'.length - cap with hm
      set sorted := stableSort tsLt c' with hsorted_def
      have hperm : List.Perm sorted c' := stableSort_perm tsLt c'
      intro hkmem
      have hslen : sorted.length = c'.length := hperm.length_eq
      have hmlt : m < sorted.length := by omega
      rw [← List.map_take] at hkmem
      rcases List.mem_map.mp hkmem with ⟨q, hq_take, hq1⟩
      have hq_eq : q = (k, ⟨d, t⟩) :=
        eq_of_mem_dictSet_key (hperm.mem_iff.mp (List.take_subset _ _ hq_take)) hq1
      have hdropne : sorted.drop m ≠ [] := by
        apply List.length_pos.mp
        rw [List.length_drop]
        omega
      obtain ⟨z, hz⟩ := List.exists_mem_of_ne_nil _ hdropne
      have hpw : (sorted.take m ++ sorted.drop m).Pairwise
          (fun a b : String × CacheItem => a.2.timestamp ≤ b.2.timestamp) := by
        rw [List.take_append_drop]
        refine stableSort_pairwise ?_ ?_ ?_ c'
        · intro x y w hxy hyw
          exact le_trans hxy hyw
        · intro a b hab
          simp only [tsLt, decide_eq_true_eq] at hab
          exact le_of_lt hab
        · intro a b hab
          simp only [tsLt, decide_eq_false_iff_not, not_lt] at hab
          exact hab
      have hrel := (List.pairwise_append.mp hpw).2.2 q hq_take z hz
      have hnodup_sorted : (sorted.map Prod.fst).Nodup :=
        (hperm.map Prod.fst).nodup_iff.mpr f3
      have hnodup_split :
          ((sorted.take m).map Prod.fst ++ (sorted.drop m).map Prod.fst).Nodup := by
        rw [← List.map_append, List.take_append_drop]
        exact hnodup_sorted
      have hdisj := (List.nodup_append.mp hnodup_split).2.2
      have hz_ne : z.1 ≠ k := by
        intro hzk
        exact hdisj (List.mem_map.mpr ⟨q, hq_take, hq1⟩) (List.mem_map.mpr ⟨z, hz, hzk⟩)
      have hz_c : z ∈ c := by
        rcases mem_dictSet (hperm.mem_iff.mp (List.drop_subset _ _ hz)) with h | h
        · rw [h] at hz_ne
          exact absurd rfl hz_ne
        · exact h.1
      have hzt : z.2.timestamp < t := hts z hz_c
      rw [hq_eq] at hrel
      have hrel' : t ≤ z.2.timestamp := hrel
      omega
    constructor
    · exact List.mem_filter.mpr ⟨f1, by simpa using hKnot⟩
    · intro q hq hqk
      rcases mem_dictSet (List.mem_filter.mp hq).1 with h | h
      · exact absurd (by rw [h]) hqk
      · exact h.1
  · rw [if_neg hgt]
    refine ⟨f1, ?_⟩
    intro q hq hqk
    rcases mem_dictSet hq with h | h
    · exact absurd (by rw [h]) hqk
    · exact h.1

/-! ## Helper lemmas: entity deduplication -/

theorem dedupEntities_eq_keepFirst (l : List EntityResponse) :
    ∀ seen, dedupEntities seen l
      = keepFirstByKey (l.filter (fun e => decide (entityKey e ∉ seen))) := by
  induction l with
  | nil =>
    intro seen
    simp [dedupEntities, keepFirstByKey]
  | cons e rest ih =>
    intro seen
    by_cases h : entityKey e ∈ seen
    · rw [List.filter_cons_of_neg (by simpa using h)]
      show dedupEntities seen (e :: rest) = _
      rw [dedupEntities, if_pos h]
      exact ih seen
    · rw [List.filter_cons_of_pos (by simpa using h)]
      rw [keepFirstByKey]
      show dedupEntities seen (e :: rest) = _
      rw [dedupEntities, if_neg h]
      congr 1
      rw [ih (entityKey e :: seen)]
      congr 1
      rw [List.filter_filter]
      apply List.filter_congr
      intro a _
      by_cases h1 : entityKey a ∈ seen <;> by_cases h2 : entityKey a = entityKey e <;>
        simp [h1, h2]

/-! ## Concrete sample values used by witnesses and counterexamples -/

/-- Minimal concrete parsed document. -/
def sampleDoc : ArticleDoc where
  title := "Sample Article"
  publish_date := some 100
  text := "This is the article text"
  article_html := "<p>This is the article text</p>"
  summary := "A summary"
  authors := ["John Doe"]
  top_image := some "https://example.com/banner.jpg"
  images := ["https://example.com/image1.jpg"]
  movies := []

/-- Task outcomes with every dispatched task succeeding. -/
def sampleTasks : TaskResults where
  entities := .ok [⟨"PERSON", "John Doe"⟩]
  social_accounts := .ok [("twitter", "sample")]
  social_shares := .ok [("facebook", 3)]
  sentiment := .ok ⟨1, 1, 0, 0⟩
  spacy_html := .ok "<div>ents</div>"
  keywords := .ok [⟨"sample", 1⟩]
  accounts := .ok [("github", "sample")]

/-- Task outcomes with every dispatched task failing. -/
def failedTasks : TaskResults where
  entities := .error "boom"
  social_accounts := .error "boom"
  social_shares := .error "boom"
  sentiment := .error "boom"
  spacy_html := .error "boom"
  keywords := .error "boom"
  accounts := .error "boom"

/-- A concrete enriched record. -/
def sampleRecord : ArticleResponse :=
  aggregate sampleDoc "markdown text" (Payloads.ofResults sampleTasks) 1

/-- A concrete two-entry cache with increasing timestamps. -/
def witnessCache : Cache :=
  [("a", ⟨sampleRecord, 0⟩), ("b", ⟨sampleRecord, 1⟩)]

/-- A concrete three-put sequence with distinct keys and increasing timestamps. -/
def witnessPuts : List (String × CacheItem) :=
  [("a", ⟨sampleRecord, 0⟩), ("b", ⟨sampleRecord, 1⟩), ("c", ⟨sampleRecord, 2⟩)]

/-! ## Claim theorems -/

/-- C1: for every enrichment run in which the Document Source fetch step
succeeds, `process_article_data` returns a complete record (never an error)
regardless of which or how many of the seven dispatched analysis tasks fail,
and each failed task's payload is replaced by its documented default
(empty list for entities and keywords, empty map for social accounts, social
shares and accounts, all-zero scores for sentiment, empty string for the
displacy markup rendering). -/
theorem claim_C1 (a : ArticleDoc) (run : ArticleDoc → TaskResults)
    (mdRender : String → String) (pt : Int) :
    process_article_data (.ok a) run mdRender pt
        = .ok (aggregate a (mdRender a.article_html) (Payloads.ofResults (run a)) pt)
      ∧ (∀ e, (run a).entities = .error e →
          (Payloads.ofResults (run a)).filtered_entities = [])
      ∧ (∀ e, (run a).social_accounts = .error e →
          (Payloads.ofResults (run a)).social_accounts = [])
      ∧ (∀ e, (run a).social_shares = .error e →
          (Payloads.ofResults (run a)).social_shares = [])
      ∧ (∀ e, (run a).sentiment = .error e →
          (Payloads.ofResults (run a)).sentiment_scores = defaultSentiment)
      ∧ (∀ e, (run a).spacy_html = .error e →
          (Payloads.ofResults (run a)).spacy_html = "")
      ∧ (∀ e, (run a).keywords = .error e →
          (Payloads.ofResults (run a)).keywords = [])
      ∧ (∀ e, (run a).accounts = .error e →
          (Payloads.ofResults (run a)).accounts = []) := by
  refine ⟨rfl, ?_, ?_, ?_, ?_, ?_, ?_, ?_⟩ <;>
    · intro e he
      simp [Payloads.ofResults, exceptD, he]

/-- Witness for C1: with every task failing, the run still returns a
complete record and every payload equals its documented default. -/
theorem claim_C1_witness :
    (Payloads.ofResults failedTasks).filtered_entities = []
      ∧ (Payloads.ofResults failedTasks).social_accounts = []
      ∧ (Payloads.ofResults failedTasks).social_shares = []
      ∧ (Payloads.ofResults failedTasks).sentiment_scores = defaultSentiment
      ∧ (Payloads.ofResults failedTasks).spacy_html = ""
      ∧ (Payloads.ofResults failedTasks).keywords = []
      ∧ (Payloads.ofResults failedTasks).accounts = []
      ∧ process_article_data (.ok sampleDoc) (fun _ => failedTasks) (fun s => s) 2
          = .ok (aggregate sampleDoc sampleDoc.article_html
              (Payloads.ofResults failedTasks) 2) := by
  have h := claim_C1 sampleDoc (fun _ => failedTasks) (fun s => s) 2
  exact ⟨h.2.1 "boom" rfl, h.2.2.1 "boom" rfl, h.2.2.2.1 "boom" rfl,
    h.2.2.2.2.1 "boom" rfl, h.2.2.2.2.2.1 "boom" rfl, h.2.2.2.2.2.2.1 "boom" rfl,
    h.2.2.2.2.2.2.2 "boom" rfl, h.1⟩

/-- C3 counterexample: when the markup-rendering task (the dispatched
displacy render, `results[4]`) is the single failing task, the returned
record is IDENTICAL to the all-success record, even though the successful
rendering ("<div>ents</div>") differs from the documented default ("").
The rendered payload is dropped during aggregation, so no field of the
returned record equals the default of the failed task, contradicting the
claim that exactly that task's field equals its documented default. -/
theorem claim_C3_counterexample :
    process_article_data (.ok sampleDoc)
        (fun _ => sampleTasks.failAt .spacyHtml "boom") (fun s => s) 2
      = process_article_data (.ok sampleDoc) (fun _ => sampleTasks) (fun s => s) 2
    ∧ (Payloads.ofResults sampleTasks).spacy_html = "<div>ents</div>"
    ∧ (Payloads.ofResults (sampleTasks.failAt .spacyHtml "boom")).spacy_html = ""
    ∧ ("<div>ents</div>" : String) ≠ "" := by
  refine ⟨rfl, rfl, rfl, by decide⟩

/-- C3 amended: if exactly one dispatched task fails, the defaulted payload
vector differs from the all-success one exactly at that task (which becomes
its documented default), and the returned record equals the all-success
record with that task's record field defaulted — where the six tasks
entities, social accounts, social shares, sentiment, keywords and accounts
each have a record field, while the markup-rendering task's payload is not
part of the record, so its failure leaves the record unchanged. -/
theorem claim_C3_amended (a : ArticleDoc) (r : TaskResults) (i : TaskId) (e : String)
    (mdRender : String → String) (pt : Int) :
    process_article_data (.ok a) (fun _ => r.failAt i e) mdRender pt
        = (process_article_data (.ok a) (fun _ => r) mdRender pt).map
            (fun rec => rec.defaultAt i)
      ∧ Payloads.ofResults (r.failAt i e) = (Payloads.ofResults r).defaultAt i := by
  cases i <;> exact ⟨rfl, rfl⟩

/-- C6: the entity filter keeps exactly the entities whose type is not
excluded and whose text length reaches the minimum, deduplicated by
`(type, lowercased text)` keeping the first occurrence in original order
(shown by equivalence with the direct first-occurrence recursion
`keepFirstByKey`), and the documented scenario evaluates as specified. -/
theorem claim_C6 :
    (∀ (opts : EntityFilterOptions) (ents : List EntityResponse),
        filter_entities ents opts = keepFirstByKey (ents.filter (entityPass opts)))
      ∧ (∀ (opts : EntityFilterOptions) (e : EntityResponse),
          entityPass opts e = true
            ↔ (e.type ∉ opts.exclude_types ∧ opts.min_length ≤ e.text.length))
      ∧ filter_entities
          [⟨"DATE", "2023"⟩, ⟨"PERSON", "Al"⟩, ⟨"PERSON", "A"⟩]
          ⟨["DATE"], 2⟩
          = [⟨"PERSON", "Al"⟩] := by
  refine ⟨?_, ?_, by decide⟩
  · intro opts ents
    unfold filter_entities
    rw [dedupEntities_eq_keepFirst]
    congr 1
    apply List.filter_eq_self.mpr
    intro a _
    simp
  · intro opts e
    simp [entityPass]

/-- C7: an entry is stale exactly when `now - storedAt > ttl` (strict, so an
entry of age exactly 3600 is fresh under the default ttl), and staleness is
monotone in the clock. -/
theorem claim_C7 :
    (∀ storedAt now ttl : Int, is_stale storedAt now ttl = true ↔ ttl < now - storedAt)
      ∧ (∀ storedAt : Int, is_stale storedAt (storedAt + 3600) 3600 = false)
      ∧ (∀ storedAt ttl now now2 : Int,
          is_stale storedAt now ttl = true → now < now2 →
          is_stale storedAt now2 ttl = true) := by
  refine ⟨?_, ?_, ?_⟩
  · intro s n t
    simp [is_stale]
  · intro s
    simp [is_stale]
  · intro s t n n2 h1 h2
    simp only [is_stale, gt_iff_lt, decide_eq_true_eq] at h1 ⊢
    omega

/-- Witness for C7: an entry stored at 0 that is stale at 3601 is still
stale at the later time 4000. -/
theorem claim_C7_witness : is_stale 0 4000 3600 = true :=
  claim_C7.2.2 0 3600 3601 4000 (by decide) (by decide)

/-- C8: keyword extraction on empty or shorter-than-10-character text
returns the empty list without invoking the external extractor (the result
does not depend on the extractor at all). -/
theorem claim_C8 (extractor extractor2 : String → Except String (List KeywordResponse))
    (text : String) (h : text = "" ∨ text.length < 10) :
    extract_keywords extractor text = []
      ∧ extract_keywords extractor text = extract_keywords extractor2 text := by
  have hc : (decide (text = "") || decide (text.length < 10)) = true := by
    rcases h with h | h <;> simp [h]
  constructor <;> simp [extract_keywords, hc]

/-- Witness for C8: a 5-character text yields an empty keyword list even
with an extractor that would return a nonempty list. -/
theorem claim_C8_witness :
    extract_keywords (fun _ => .ok [⟨"kw", 1⟩]) "abcde" = [] :=
  (claim_C8 (fun _ => .ok [⟨"kw", 1⟩]) (fun _ => .error "never") "abcde"
    (Or.inr (by decide))).1

/-- C2: the source's cache write is the capacity-100 instance of the
parametric write; after any write to a unique-key cache within capacity the
size stays at most the capacity; and for any sequence of more than `cap`
puts with distinct keys and strictly increasing timestamps starting from an
empty store, the store ends holding exactly the `cap` most-recently-stored
entries (the oldest-timestamp entries having been evicted). -/
theorem claim_C2 :
    (∀ (c : Cache) (k : String) (d : ArticleResponse) (t : Int),
        cache_put c k d t = cache_put_cap 100 c k d t)
      ∧ (∀ (cap : Nat) (c : Cache) (k : String) (d : ArticleResponse) (t : Int),
          (c.map Prod.fst).Nodup → c.length ≤ cap →
          (cache_put_cap cap c k d t).length ≤ cap)
      ∧ (∀ (cap : Nat) (ps : List (String × CacheItem)),
          (ps.map Prod.fst).Nodup →
          ps.Pairwise (fun a b => a.2.timestamp < b.2.timestamp) →
          cap < ps.length →
          ps.foldl (fun c p => cache_put_cap cap c p.1 p.2.data p.2.timestamp) []
              = ps.drop (ps.length - cap)
            ∧ (ps.foldl (fun c p => cache_put_cap cap c p.1 p.2.data p.2.timestamp)
                []).length = cap) := by
  refine ⟨fun c k d t => rfl, ?_, ?_⟩
  · intro cap c k d t hnodup hlen
    exact cache_put_cap_length_le cap c k d t hnodup hlen
  · intro cap ps hnodup hsorted hlt
    have h := cache_put_cap_fold cap ps [] (by simpa using hnodup)
      (by simpa using hsorted) (by simp)
    have h' : ps.foldl (fun c p => cache_put_cap cap c p.1 p.2.data p.2.timestamp) []
        = ps.drop (ps.length - cap) := by
      simpa using h
    refine ⟨h', ?_⟩
    rw [h', List.length_drop]
    omega

/-- Witness for C2: three puts with distinct keys and increasing timestamps
into a capacity-2 store retain exactly the two most recent entries. -/
theorem claim_C2_witness :
    witnessPuts.foldl (fun c p => cache_put_cap 2 c p.1 p.2.data p.2.timestamp) []
        = witnessPuts.drop (witnessPuts.length - 2)
      ∧ (witnessPuts.foldl (fun c p => cache_put_cap 2 c p.1 p.2.data p.2.timestamp)
          []).length = 2 :=
  claim_C2.2.2 2 witnessPuts (by decide) (by decide) (by decide)

/-- C4: with caching enabled, a hit on an entry whose age exceeds 3600
returns the existing stale record immediately with the served-from-cache
flag, leaves the cache unchanged, and schedules exactly one background
refresh for that key; and a refresh whose enrichment fails leaves the cache
(in particular the stale entry) unchanged. -/
theorem claim_C4 :
    (∀ (md5hex : String → String) (fetchResult : Except String ArticleDoc)
        (run : ArticleDoc → TaskResults) (mdRender : String → String)
        (link : String) (cache : Cache) (now pt : Int) (item : CacheItem),
        dictFind cache (md5hex link) = some item →
        is_stale item.timestamp now 3600 = true →
        (process_article md5hex fetchResult run mdRender link true cache now pt).response
            = .ok ⟨item.data, true⟩
          ∧ (process_article md5hex fetchResult run mdRender link true cache now pt).cache
            = cache
          ∧ (process_article md5hex fetchResult run mdRender link true cache
              now pt).refreshes = [(link, md5hex link)])
      ∧ (∀ (e : HttpError) (c : Cache) (cache_key : String) (now : Int),
          update_article_cache (.error e) c cache_key now = c) := by
  constructor
  · intro md5hex fetchResult run mdRender link cache now pt item hfind hstale
    refine ⟨?_, ?_, ?_⟩ <;> simp [process_article, hfind, hstale]
  · intro e c cache_key now
    rfl

/-- Witness for C4: a stale hit (stored at 0, read at 3601) on a concrete
cache returns the stale record, keeps the cache intact and schedules exactly
one refresh; a failed refresh leaves the cache unchanged. -/
theorem claim_C4_witness :
    ((process_article (fun _ => "a") (.error "x") (fun _ => failedTasks)
        (fun s => s) "u" true witnessCache 3601 0).response
          = .ok ⟨sampleRecord, true⟩
      ∧ (process_article (fun _ => "a") (.error "x") (fun _ => failedTasks)
          (fun s => s) "u" true witnessCache 3601 0).cache = witnessCache
      ∧ (process_article (fun _ => "a") (.error "x") (fun _ => failedTasks)
          (fun s => s) "u" true witnessCache 3601 0).refreshes = [("u", "a")])
      ∧ update_article_cache (.error ⟨422, "boom"⟩) witnessCache "a" 5000
        = witnessCache := by
  constructor
  · exact claim_C4.1 (fun _ => "a") (.error "x") (fun _ => failedTasks)
      (fun s => s) "u" witnessCache 3601 0 ⟨sampleRecord, 0⟩ (by decide) (by decide)
  · exact claim_C4.2 ⟨422, "boom"⟩ witnessCache "a" 5000

/-- C5: when the synchronous enrichment path is taken (caching disabled or
no cache entry for the key) and the Document Source fetch fails, the request
surfaces the structured 422 error and the cache is left exactly as it was,
with no background refresh scheduled. -/
theorem claim_C5 (md5hex : String → String) (msg : String)
    (run : ArticleDoc → TaskResults) (mdRender : String → String)
    (link : String) (useCache : Bool) (cache : Cache) (now pt : Int)
    (hmiss : useCache = false ∨ dictContains cache (md5hex link) = false) :
    (process_article md5hex (.error msg) run mdRender link useCache cache
        now pt).response
        = .error ⟨422, "Could not fetch article: " ++ msg⟩
      ∧ (process_article md5hex (.error msg) run mdRender link useCache cache
          now pt).cache = cache
      ∧ (process_article md5hex (.error msg) run mdRender link useCache cache
          now pt).refreshes = [] := by
  have hnone : (if useCache then dictFind cache (md5hex link) else none) = none := by
    rcases hmiss with h | h
    · rw [h]
      rfl
    · rw [dictFind_eq_none h]
      simp
  refine ⟨?_, ?_, ?_⟩ <;>
    simp [process_article, hnone, process_article_data, fetch_article]

/-- Witness for C5: a fetch failure on an empty cache (with caching enabled)
returns the 422 error, leaves the cache empty and schedules nothing. -/
theorem claim_C5_witness :
    (process_article (fun s => s) (.error "timeout") (fun _ => failedTasks)
        (fun s => s) "u" true [] 0 0).response
        = .error ⟨422, "Could not fetch article: " ++ "timeout"⟩
      ∧ (process_article (fun s => s) (.error "timeout") (fun _ => failedTasks)
          (fun s => s) "u" true [] 0 0).cache = []
      ∧ (process_article (fun s => s) (.error "timeout") (fun _ => failedTasks)
          (fun s => s) "u" true [] 0 0).refreshes = [] :=
  claim_C5 (fun s => s) "timeout" (fun _ => failedTasks) (fun s => s) "u" true [] 0 0
    (Or.inr (by decide))

/-- C9: the listing route reports the total count of all cached entries (not
of the page), returns as page exactly the slice `[offset, offset+limit)` of
the sorted working list, the sorted list is a permutation of one working
entry per cache entry, it is ordered by `creation_date` descending, and each
entry's `creation_date` is the article's own publish date when present,
falling back to the cache-write time. -/
theorem claim_C9 (c : Cache) (limit offset : Nat) :
    (get_cached_articles c limit offset).1 = c.length
      ∧ (get_cached_articles c limit offset).2
          = (((cachedSorted c).drop offset).take limit).map
              (fun it => ⟨it.cache_key, it.cached_at, it.article⟩)
      ∧ List.Perm (cachedSorted c) (c.map toCachedEntry)
      ∧ (cachedSorted c).Pairwise (fun a b => b.creation_date ≤ a.creation_date)
      ∧ (∀ ent ∈ cachedSorted c,
          ent.creation_date
            = match ent.article.date with
              | some d => d
              | none => ent.cached_at) := by
  refine ⟨?_, rfl, stableSort_perm _ _, ?_, ?_⟩
  · show (stableSort cdGt (c.map toCachedEntry)).length = c.length
    rw [(stableSort_perm cdGt _).length_eq, List.length_map]
  · refine stableSort_pairwise ?_ ?_ ?_ _
    · intro x y w hxy hyw
      exact le_trans hyw hxy
    · intro a b hab
      simp only [cdGt, decide_eq_true_eq] at hab
      exact le_of_lt hab
    · intro a b hab
      simp only [cdGt, decide_eq_false_iff_not, not_lt] at hab
      exact hab
  · intro ent hent
    have hmem : ent ∈ c.map toCachedEntry :=
      (stableSort_perm cdGt (c.map toCachedEntry)).mem_iff.mp hent
    rcases List.mem_map.mp hmem with ⟨p, _, hpe⟩
    rw [← hpe]
    cases hdate : p.2.data.date <;> simp [toCachedEntry, hdate]

/-- Witness for C9: on a concrete two-entry cache the total equals the cache
size and the sorted-entry invariant holds for a concrete member. -/
theorem claim_C9_witness :
    (toCachedEntry ("a", (⟨sampleRecord, 0⟩ : CacheItem))).creation_date
        = (match (toCachedEntry ("a", (⟨sampleRecord, 0⟩ : CacheItem))).article.date with
          | some d => d
          | none => (toCachedEntry ("a", (⟨sampleRecord, 0⟩ : CacheItem))).cached_at)
      ∧ (get_cached_articles witnessCache 10 0).1 = witnessCache.length :=
  ⟨(claim_C9 witnessCache 10 0).2.2.2.2 _ (by decide), (claim_C9 witnessCache 10 0).1⟩

/-- C10: a cache write for key `k` (when the cache keys are unique and the
new timestamp is strictly the largest) leaves every surviving entry with a
key other than `k` exactly as it was — same record, same stored timestamp —
and the newly written entry itself is never evicted by that same write. -/
theorem claim_C10 (c : Cache) (k : String) (d : ArticleResponse) (t : Int)
    (hnodup : (c.map Prod.fst).Nodup)
    (hts : ∀ q ∈ c, q.2.timestamp < t) :
    (k, ⟨d, t⟩) ∈ cache_put c k d t
      ∧ ∀ q ∈ cache_put c k d t, q.1 ≠ k → q ∈ c :=
  cache_put_cap_frame 100 c k d t (by omega) hnodup hts

/-- Witness for C10: writing a third key with the largest timestamp into a
concrete two-entry cache keeps the new entry and every old entry intact. -/
theorem claim_C10_witness :
    (("c", (⟨sampleRecord, 2⟩ : CacheItem)) ∈ cache_put witnessCache "c" sampleRecord 2)
      ∧ ∀ q ∈ cache_put witnessCache "c" sampleRecord 2, q.1 ≠ "c" → q ∈ witnessCache :=
  claim_C10 witnessCache "c" sampleRecord 2 (by decide) (by decide)

end NewsNlp
